import Mathlib

/-
Verification of the inquirer-interactive-text core: a shallow embedding of the
navigation/edit state machine, action registry, validation pipeline and template
renderer, together with theorems about the claimed properties.

Conventions of the embedding:
* JavaScript objects used as string maps (the values State, the ErrorMap, the
  derived field-definition map) are modelled as association lists `Smap` with
  JS-accurate operations: property lookup, spread-with-override (replace in
  place, else append — matching JS insertion-order semantics), and
  rest-destructuring removal.
* JS truthiness of an `undefined | null | string` value is `strTruthy`:
  truthy iff the value is a present, non-empty string.
* Grid indices are `Int` (JS numbers; all arithmetic here is exact integer
  arithmetic). `idx? l i` models `l[i]`: `undefined` (`none`) when out of
  bounds. Note that in JS an *empty* row is truthy, so `fieldGrid[r]` being
  an empty array does not take the defensive `return current` branch.
-/

namespace InteractiveText

/-- Association-list model of a JS object used as a string-keyed map. -/
def Smap (α : Type) : Type := List (String × α)

namespace Smap

/-- JS property lookup: first (and, for maps built by the operations below,
only) binding for the key. -/
def lookup {α : Type} (m : Smap α) (k : String) : Option α :=
  match m with
  | [] => none
  | (k', v) :: rest => if k' = k then some v else lookup rest k

/-- JS spread-with-override: `\x7b ...m, [k]: v \x7d` keeps the original key
position when the key already exists, else appends the new key last. -/
def insert {α : Type} (m : Smap α) (k : String) (v : α) : Smap α :=
  match m with
  | [] => [(k, v)]
  | (k', v') :: rest => if k' = k then (k, v) :: rest else (k', v') :: insert rest k v

/-- JS rest-destructuring removal: `const \x7b [k]: _, ...rest \x7d = m`. -/
def erase {α : Type} (m : Smap α) (k : String) : Smap α :=
  match m with
  | [] => []
  | (k', v') :: rest => if k' = k then erase rest k else (k', v') :: erase rest k

instance {α : Type} [DecidableEq α] : DecidableEq (Smap α) :=
  inferInstanceAs (DecidableEq (List (String × α)))

end Smap

/-- JS truthiness of an `undefined | null | string` value: truthy iff present
and non-empty. -/
def strTruthy (v : Option String) : Bool :=
  match v with
  | none => false
  | some s => s ≠ ""

/-- Field definition (src/unnamed/part_001 lines 41-50). The `validator`
returns `undefined | null | string`, modelled as `Option String` where a
returned empty string is also falsy. -/
structure Field where
  id : String
  label : Option String
  placeholder : Option String
  required : Bool
  defaultValue : Option String
  validator : Option (String → Option String)
  transformer : Option (String → String)
  multiline : Bool

/-- A bare field with only an id, all optional parts absent. -/
def mkField (id : String) : Field :=
  ⟨id, none, none, false, none, none, none, false⟩

/-- Cursor position; JS numbers, here exact integers. -/
structure Position where
  row : Int
  col : Int
deriving DecidableEq, Repr

abbrev FieldGrid := List (List Field)

/-- JS array indexing `l[i]`: `undefined` out of bounds (including negative). -/
def idx? {α : Type} (l : List α) (i : Int) : Option α :=
  if 0 ≤ i then l.get? i.toNat else none

/-- `getFlatFields` (part_001 lines 103-105): `fieldGrid.flat()`. -/
def getFlatFields (fieldGrid : FieldGrid) : List Field :=
  fieldGrid.flatten

/-- `getFieldAtPosition` (part_001 lines 107-109):
`fieldGrid[position.row]?.[position.col]`. -/
def getFieldAtPosition (fieldGrid : FieldGrid) (position : Position) : Option Field :=
  match idx? fieldGrid position.row with
  | none => none
  | some row => idx? row position.col

inductive Direction | up | down | left | right
deriving DecidableEq, Repr

/-- `navigatePosition` (part_001 lines 133-164). Faithful to the JS with one
caveat: in JS, `%` by zero yields NaN; that arises only when the *current* row
is empty (`right` on an empty row), a situation excluded by the valid-position
hypotheses of every theorem below (a valid position implies its row is
non-empty). For `down`/`up` on the empty grid, JS indexes by NaN and returns
`current`, and this definition also returns `current` (the out-of-bounds
lookup fails), so the two agree there. -/
def navigatePosition (fieldGrid : FieldGrid) (current : Position) (direction : Direction) :
    Position :=
  match direction with
  | .right =>
    match idx? fieldGrid current.row with
    | none => current
    | some currentRow =>
      let nextCol := (current.col + 1) % (currentRow.length : Int)
      ⟨current.row, nextCol⟩
  | .left =>
    match idx? fieldGrid current.row with
    | none => current
    | some currentRow =>
      let prevCol := if current.col = 0 then (currentRow.length : Int) - 1 else current.col - 1
      ⟨current.row, prevCol⟩
  | .down =>
    let nextRow := (current.row + 1) % (fieldGrid.length : Int)
    match idx? fieldGrid nextRow with
    | none => current
    | some targetRow => ⟨nextRow, min current.col ((targetRow.length : Int) - 1)⟩
  | .up =>
    let prevRow := if current.row = 0 then (fieldGrid.length : Int) - 1 else current.row - 1
    match idx? fieldGrid prevRow with
    | none => current
    | some targetRow => ⟨prevRow, min current.col ((targetRow.length : Int) - 1)⟩

/-- The position-validity invariant of the data model: the position indexes an
existing field of the grid. -/
def indexesField (grid : FieldGrid) (p : Position) : Bool :=
  match idx? grid p.row with
  | none => false
  | some row => decide (0 ≤ p.col ∧ p.col < (row.length : Int))

/-- The mutable session state held by the State Store (the `useState` hooks of
part_001 lines 360-371): committed values, ErrorMap, cursor position, edit-mode
flag and the in-progress edit buffer. -/
structure SessionState where
  values : Smap String
  errors : Smap String
  position : Position
  editMode : Bool
  editValue : String
deriving DecidableEq

/-- `actionMap.edit` (part_001 lines 184-189): enter edit mode and seed the
edit buffer with the committed value (`state[id] || ''`, which is the committed
value when present, the empty string otherwise). -/
def editAction (grid : FieldGrid) (s : SessionState) : SessionState :=
  match getFieldAtPosition grid s.position with
  | none => s
  | some currentField =>
    { s with editMode := true,
             editValue := (Smap.lookup s.values currentField.id).getD "" }

/-- `actionMap.remove` (part_001 lines 190-194): rest-destructuring removes the
current field's key from the values object entirely. -/
def removeAction (grid : FieldGrid) (s : SessionState) : SessionState :=
  match getFieldAtPosition grid s.position with
  | none => s
  | some currentField =>
    { s with values := Smap.erase s.values currentField.id }

/-- A JS object reference is truthy regardless of its contents; in particular
the controls' `errors` object is truthy even when it holds no entries. -/
def jsObjectTruthy (_m : Smap String) : Bool :=
  true

/-- `actionMap.done` (part_001 lines 195-199). In this (final) revision the
`validateFields` sweep call is commented out; the guard testing `errors` for
falsiness before calling `done()` tests the truthiness of the controls' `errors` object itself, and
`setErrors(errors)` re-sets the same object. The second component is the
termination payload: `some values` when `done()` was invoked, `none` otherwise. -/
def doneAction (s : SessionState) : SessionState × Option (Smap String) :=
  if !jsObjectTruthy s.errors then (s, some s.values)
  else ({ s with errors := s.errors }, none)

/-- `actionMap.cancel` (part_001 lines 200-204): leave edit mode and wipe the
edit buffer. -/
def cancelAction (s : SessionState) : SessionState :=
  { s with editMode := false, editValue := "" }

/-- `actionMap.save` (part_001 lines 205-211): refuse when there is no current
field or `errors[currentField.id]` is truthy; otherwise commit the edit buffer
into the values for the current field id, leave edit mode and clear the
buffer. -/
def saveAction (grid : FieldGrid) (s : SessionState) : SessionState :=
  match getFieldAtPosition grid s.position with
  | none => s
  | some currentField =>
    if strTruthy (Smap.lookup s.errors currentField.id) then s
    else
      { s with values := Smap.insert s.values currentField.id s.editValue,
               editMode := false,
               editValue := "" }

/-- `validate` (part_001 lines 166-179), the per-keystroke pipeline: apply the
focused field's transformer (identity when absent) to the raw line, run the
validator on the candidate; a falsy result (no validator, `undefined`/`null`
return, or empty-string return) removes the field's error entry via
rest-destructuring, a truthy result sets it via spread; finally the edit buffer
is set to the transformed candidate. `currentField ?? \x7b\x7d` makes the id
default to the empty string when no field is focused. -/
def validate (currentLine : String) (currentField : Option Field) (s : SessionState) :
    SessionState :=
  let transformer := currentField.bind Field.transformer
  let validator := currentField.bind Field.validator
  let id := (currentField.map Field.id).getD ""
  let transformedValue :=
    match transformer with
    | some t => t currentLine
    | none => currentLine
  let error :=
    match validator with
    | some v => v transformedValue
    | none => none
  let newErrors :=
    if strTruthy error then Smap.insert s.errors id (error.getD "")
    else Smap.erase s.errors id
  { s with errors := newErrors, editValue := transformedValue }

/-- `validateFields` (src/src/interactiveText.ts lines 94-113), the full-grid
validation sweep over committed values: an empty/absent value of a `required`
field yields `"<id> is required"`; a non-empty value with a validator records
the validator's message when truthy. Returns `none` when the sweep finds no
errors, else the ErrorMap. -/
def validateFields (state : Smap String) (fields : FieldGrid) : Option (Smap String) :=
  let errors :=
    (getFlatFields fields).foldl
      (fun errors f =>
        let value := Smap.lookup state f.id
        if strTruthy value then
          match f.validator with
          | some validator =>
            match validator (value.getD "") with
            | some e => if e = "" then errors else Smap.insert errors f.id e
            | none => errors
          | none => errors
        else if f.required then Smap.insert errors f.id (f.id ++ " is required")
        else errors)
      []
  if errors.length ≠ 0 then some errors else none

/-- Character class of the JS `\s` escape (ASCII part; the key strings here
are ASCII). -/
def isJsWhitespace (c : Char) : Bool :=
  c = ' ' || c = '\t' || c = '\n' || c = '\r' || c = '\x0b' || c = '\x0c'

/-- Whether `l` starts with the pattern `pat`. -/
def startsWithChars : List Char → List Char → Bool
  | [], _ => true
  | _ :: _, [] => false
  | p :: ps, c :: cs => p = c && startsWithChars ps cs

/-- Replace the first occurrence of `pat` in the character list by `rep`, as a
JS `String.replace` with a non-global pattern does. -/
def replaceFirstChars (pat rep : List Char) : List Char → List Char
  | [] => []
  | c :: cs =>
    if startsWithChars pat (c :: cs) then rep ++ (c :: cs).drop pat.length
    else c :: replaceFirstChars pat rep cs

/-- Key normalization of the `Action` constructor (part_001 line 226):
remove whitespace, lowercase, replace the first occurrence of `enter` by
`return`. Note: no modifier reordering takes place. -/
def normalizeKey (key : String) : String :=
  let stripped := (key.data.filter (fun c => !isJsWhitespace c)).map Char.toLower
  String.mk (replaceFirstChars "enter".data "return".data stripped)

/-- JS `part.replace(/^\w/, v => v.toUpperCase())`: uppercase the first
character (uppercasing is the identity on non-letters, so the word-character
guard of the regex is immaterial). -/
def capitalizeFirst (s : String) : String :=
  match s.data with
  | [] => ""
  | c :: cs => String.mk (c.toUpper :: cs)

/-- JS `combo.split('+')` on the character level. -/
def splitPlusAux : List Char → List Char → List String
  | [], acc => [String.mk acc.reverse]
  | c :: cs, acc =>
    if c = '+' then String.mk acc.reverse :: splitPlusAux cs []
    else splitPlusAux cs (c :: acc)

def splitOnPlus (s : String) : List String :=
  splitPlusAux s.data []

/-- JS `name.toLowerCase()` for the ASCII key names occurring here. -/
def lowerAscii (s : String) : String :=
  String.mk (s.data.map Char.toLower)

/-- Default label derivation (part_001 lines 228-234): capitalize each
`+`-separated part of the normalized combo, join with `+`, replace the first
`Return` by `Enter`, and wrap in parentheses. -/
def deriveLabel (keyCombination : String) : String :=
  let joined := String.intercalate "+" ((splitOnPlus keyCombination).map capitalizeFirst)
  "(" ++ String.mk (replaceFirstChars "Return".data "Enter".data joined.data) ++ ")"

inductive Scope | edit | navigate
deriving DecidableEq, Repr

inductive BuiltinTag | save | cancel | edit | remove | done
deriving DecidableEq, Repr

/-- The `action` member of an `ActionConfig`: either a builtin tag string or a
custom callback (custom callbacks are tracked opaquely by an index; none of
the claims execute them). -/
inductive ActionSpec
  | tag (t : BuiltinTag)
  | custom (id : Nat)
deriving DecidableEq, Repr

/-- `ActionConfig` (part_001 lines 59-77). -/
structure ActionConfig where
  scope : Scope
  name : String
  key : String
  displayKey : Option String
  action : ActionSpec
  label : Option String
deriving DecidableEq, Repr

/-- The resolved `Action` object (part_001 lines 214-255). -/
structure Action where
  scope : Scope
  name : String
  keyCombination : String
  label : String
  spec : ActionSpec
deriving DecidableEq, Repr

/-- The `Action` constructor (part_001 lines 219-237). -/
def mkAction (scope : Scope) (name : String) (spec : ActionSpec) (key : String)
    (label : Option String) : Action :=
  let keyCombination := normalizeKey key
  ⟨scope, name, keyCombination, label.getD (deriveLabel keyCombination), spec⟩

/-- A user `ActionConfig` resolved via the `Action` constructor
(part_001 line 278). -/
def mkUserAction (c : ActionConfig) : Action :=
  mkAction c.scope c.name c.action c.key c.label

def defaultDoneAction : Action := mkAction .navigate "Done" (.tag .done) "alt+enter" none
def defaultEditAction : Action := mkAction .navigate "Edit" (.tag .edit) "enter" none
def defaultRemoveAction : Action := mkAction .navigate "Remove" (.tag .remove) "delete" (some "(Del)")
def defaultCancelAction : Action := mkAction .edit "Cancel" (.tag .cancel) "escape" (some "(Esc)")
def defaultSaveAction : Action := mkAction .edit "Save" (.tag .save) "enter" none

/-- `actionConfigs.some(a => a.action === 'tag')`: a custom-callback action
never equals a builtin tag string. -/
def declares (cfgs : List ActionConfig) (t : BuiltinTag) : Bool :=
  cfgs.any (fun a => decide (a.action = ActionSpec.tag t))

/-- The merged action list of `parseActions` (part_001 lines 278-287): the
user's actions in order, then a hard default appended for each builtin tag no
user config declares, in the fixed order done, edit, remove, cancel, save. -/
def mergedActions (actionConfigs : List ActionConfig) : List Action :=
  let actions := actionConfigs.map mkUserAction
  let actions := if declares actionConfigs .done then actions else actions ++ [defaultDoneAction]
  let actions := if declares actionConfigs .edit then actions else actions ++ [defaultEditAction]
  let actions := if declares actionConfigs .remove then actions else actions ++ [defaultRemoveAction]
  let actions := if declares actionConfigs .cancel then actions else actions ++ [defaultCancelAction]
  let actions := if declares actionConfigs .save then actions else actions ++ [defaultSaveAction]
  actions

/-- `parseActions` (part_001 lines 277-293): merge, then partition by scope. -/
def parseActions (actionConfigs : List ActionConfig) : List Action × List Action :=
  let actions := mergedActions actionConfigs
  (actions.filter (fun a => decide (a.scope = Scope.edit)),
   actions.filter (fun a => decide (a.scope = Scope.navigate)))

/-- An incoming key event: name plus ctrl/shift/meta modifier flags
(part_001 line 181). -/
structure KeyEvent where
  name : String
  ctrl : Bool
  shift : Bool
  meta : Bool
deriving DecidableEq, Repr

/-- The candidate combo built by `Action.isTriggered` (part_001 lines
239-246): start from the lowercase key name and `unshift` ctrl, then shift,
then alt (for meta), producing the fixed order alt, shift, ctrl, name. -/
def candidateCombo (key : KeyEvent) : String :=
  let keys := [lowerAscii key.name]
  let keys := if key.ctrl then "ctrl" :: keys else keys
  let keys := if key.shift then "shift" :: keys else keys
  let keys := if key.meta then "alt" :: keys else keys
  String.intercalate "+" keys

/-- `Action.isTriggered`: string equality of the stored combo and the
candidate combo. -/
def isTriggered (a : Action) (key : KeyEvent) : Bool :=
  decide (a.keyCombination = candidateCombo key)

/-- The dispatch of `useKeypress` (part_001 lines 424-437): the first action
of the current scope's registration-ordered list whose combo matches fires;
`find?` returns at most one action. -/
def findTriggered (actions : List Action) (key : KeyEvent) : Option Action :=
  actions.find? (fun a => isTriggered a key)

/-- Modelled from the spec (for comparison only; the code's `normalizeKey` is
above): the spec claims the normal form places the modifiers in the fixed
order ctrl, shift, alt before the lowercase key name, with `enter` replaced by
the canonical token. -/
def specNormalizeKey (key : String) : String :=
  let lowered := String.mk ((key.data.filter (fun c => !isJsWhitespace c)).map Char.toLower)
  let parts := splitOnPlus lowered
  let isMod := fun (p : String) =>
    decide (p = "ctrl") || decide (p = "shift") || decide (p = "alt")
  let names := (parts.filter (fun p => !isMod p)).map (fun n => if n = "enter" then "return" else n)
  let ordered :=
    (if parts.any (fun p => decide (p = "ctrl")) then ["ctrl"] else []) ++
    (if parts.any (fun p => decide (p = "shift")) then ["shift"] else []) ++
    (if parts.any (fun p => decide (p = "alt")) then ["alt"] else [])
  String.intercalate "+" (ordered ++ names)

/-- Modelled from the spec (for comparison only): the candidate combo the
spec describes, with modifiers in the fixed order ctrl, shift, alt before the
lowercase key name. -/
def specCandidateCombo (key : KeyEvent) : String :=
  let mods :=
    (if key.ctrl then ["ctrl"] else []) ++
    (if key.shift then ["shift"] else []) ++
    (if key.meta then ["alt"] else [])
  String.intercalate "+" (mods ++ [lowerAscii key.name])

/-- Placeholder defaulting inside the `fields` memo (part_001 line 322):
a field with a falsy placeholder gets `<id>` when required, else `id?`. -/
def withPlaceholderDefault (f : Field) : Field :=
  if strTruthy f.placeholder then f
  else { f with placeholder := some (if f.required then "<" ++ f.id ++ ">" else f.id ++ "?") }

/-- The derived field-definition map (the `fields` memo, part_001 lines
317-327): `Object.fromEntries` over the flat field list after placeholder
defaulting. With duplicate ids, `Object.fromEntries` keeps the value of the
later entry (the property is overwritten in place). -/
def fieldsById (grid : FieldGrid) : Smap Field :=
  (getFlatFields grid).foldl
    (fun m f =>
      let f' := withPlaceholderDefault f
      Smap.insert m f'.id f')
    []

/-- The last field in flat grid order whose id matches; this is the field the
derived field-definition map resolves a duplicate id to. -/
def lastMatch (id : String) : List Field → Option Field
  | [] => none
  | f :: rest =>
    match lastMatch id rest with
    | some g => some g
    | none => if f.id = id then some f else none

/-- JS `row.findIndex(field => field.id === id)`: first index, `-1` when
absent. -/
def findIndexField (row : List Field) (id : String) : Int :=
  match row.findIdx? (fun f => decide (f.id = id)) with
  | some i => (i : Int)
  | none => -1

/-- The loop body of `setCurrentField` (part_001 lines 407-418): scan the rows
in order; on the first row whose `findIndex` is greater than `-1`, stop. The
accumulator `columnIndex` starts at 0 and afterwards holds the previous row's
`findIndex` result, which is what the JS returns when the id is absent from
every row. -/
def setCurrentFieldAux (id : String) : List (List Field) → Int → Int → Position
  | [], rowIndex, columnIndex => ⟨rowIndex, columnIndex⟩
  | row :: rest, rowIndex, _ =>
    let columnIndex := findIndexField row id
    if columnIndex > -1 then ⟨rowIndex, columnIndex⟩
    else setCurrentFieldAux id rest (rowIndex + 1) columnIndex

/-- `setCurrentField` (part_001 lines 407-418): position of the searched id. -/
def setCurrentFieldPosition (grid : FieldGrid) (id : String) : Position :=
  setCurrentFieldAux id grid 0 0

/-- Row-major position of the first field with the given id, the natural
notion of "first occurrence in grid order". -/
def firstOccAux (id : String) : List (List Field) → Int → Option Position
  | [], _ => none
  | row :: rest, r =>
    match row.findIdx? (fun f => decide (f.id = id)) with
    | some c => some ⟨r, (c : Int)⟩
    | none => firstOccAux id rest (r + 1)

def firstOccPos (grid : FieldGrid) (id : String) : Option Position :=
  firstOccAux id grid 0

/-- The `valueStr` computation of the template-renderer callback (part_001
lines 346-347): the state value when truthy, else the field config's
placeholder, else the bare field name. -/
def displayTextOf (fields : Smap Field) (state : Smap String) (fieldName : String) : String :=
  if strTruthy (Smap.lookup state fieldName) then (Smap.lookup state fieldName).getD ""
  else ((Smap.lookup fields fieldName).bind Field.placeholder).getD fieldName

/-- The per-placeholder resolution of the template renderer (the `replace`
callback, part_001 lines 340-353), applied by the `g`-flagged regex to each
`\x7bid\x7d` placeholder independently: display text is the state value when
truthy, else the field config's placeholder, else the bare field name; then
exactly one style is applied by priority error, editing, selected, none. -/
def renderField (fields : Smap Field)
    (errorStyleFn editingStyleFn selectedStyleFn : String → String)
    (state : Smap String) (isEdit : Bool) (errorFields : List String)
    (focusedField : Option String) (fieldName : String) : String :=
  let isFocused : Bool := decide (focusedField = some fieldName)
  let valueStr := displayTextOf fields state fieldName
  if isEdit && isFocused && decide (fieldName ∈ errorFields) then errorStyleFn valueStr
  else if isEdit && isFocused then editingStyleFn valueStr
  else if isFocused then selectedStyleFn valueStr
  else valueStr

/-- The candidate value of the per-keystroke pipeline: the raw line after the
field's transformer (identity when absent). -/
def candidateOf (f : Field) (line : String) : String :=
  match f.transformer with
  | some t => t line
  | none => line

/-- A user configuration overriding the `done` binding, used to instantiate
the action-merge theorem. -/
def doneOverrideConfig : ActionConfig :=
  ⟨Scope.navigate, "Finish", "ctrl+d", none, ActionSpec.tag BuiltinTag.done, none⟩

namespace Smap

theorem lookup_insert_self {α : Type} (m : Smap α) (k : String) (v : α) :
    lookup (insert m k v) k = some v := by
  induction m with
  | nil => simp [insert, lookup]
  | cons hd tl ih =>
    obtain ⟨k', v'⟩ := hd
    by_cases h : k' = k
    · simp [insert, lookup, h]
    · simp [insert, lookup, h, ih]

theorem lookup_insert_ne {α : Type} (m : Smap α) (k k' : String) (v : α) (h : k ≠ k') :
    lookup (insert m k v) k' = lookup m k' := by
  induction m with
  | nil => simp [insert, lookup, h]
  | cons hd tl ih =>
    obtain ⟨k₀, v₀⟩ := hd
    by_cases h₀ : k₀ = k
    · subst h₀
      simp [insert, lookup, h]
    · by_cases h₁ : k₀ = k'
      · subst h₁
        simp [insert, lookup, h₀]
      · simp [insert, lookup, h₀, h₁, ih]

theorem lookup_erase_self {α : Type} (m : Smap α) (k : String) :
    lookup (erase m k) k = none := by
  induction m with
  | nil => simp [erase, lookup]
  | cons hd tl ih =>
    obtain ⟨k', v'⟩ := hd
    by_cases h : k' = k
    · subst h
      simpa [erase] using ih
    · simp [erase, lookup, h, ih]

theorem lookup_erase_ne {α : Type} (m : Smap α) (k k' : String) (h : k ≠ k') :
    lookup (erase m k) k' = lookup m k' := by
  induction m with
  | nil => simp [erase]
  | cons hd tl ih =>
    obtain ⟨k₀, v₀⟩ := hd
    by_cases h₀ : k₀ = k
    · subst h₀
      simp [erase, lookup, h, ih]
    · by_cases h₁ : k₀ = k'
      · subst h₁
        simp [erase, lookup, h₀]
      · simp [erase, lookup, h₀, h₁, ih]

end Smap

theorem idx?_pos_len {α : Type} {l : List α} {i : Int} {x : α}
    (h : idx? l i = some x) : 0 ≤ i ∧ i < (l.length : Int) := by
  unfold idx? at h
  by_cases h0 : 0 ≤ i
  · rw [if_pos h0] at h
    have hlt : i.toNat < l.length := by
      by_contra hc
      push_neg at hc
      rw [List.get?_eq_none.mpr hc] at h
      exact Option.noConfusion h
    refine ⟨h0, ?_⟩
    omega
  · rw [if_neg h0] at h
    exact Option.noConfusion h

theorem idx?_of_bounds {α : Type} {l : List α} {i : Int}
    (h0 : 0 ≤ i) (hlt : i < (l.length : Int)) : ∃ x, idx? l i = some x := by
  unfold idx?
  have hlt' : i.toNat < l.length := by omega
  exact ⟨l.get ⟨i.toNat, hlt'⟩, by simp [h0, List.get?_eq_get hlt']⟩

theorem idx?_mem {α : Type} {l : List α} {i : Int} {x : α}
    (h : idx? l i = some x) : x ∈ l := by
  unfold idx? at h
  by_cases h0 : 0 ≤ i
  · rw [if_pos h0] at h
    exact List.get?_mem h
  · rw [if_neg h0] at h
    exact Option.noConfusion h

theorem indexesField_eq_true_iff (grid : FieldGrid) (p : Position) :
    indexesField grid p = true ↔
      ∃ row, idx? grid p.row = some row ∧ 0 ≤ p.col ∧ p.col < (row.length : Int) := by
  unfold indexesField
  cases h : idx? grid p.row with
  | none => simp
  | some row => simp [h]

/-- C6: for every grid and valid position, `right` then `left` (and `left`
then `right`) return to the original position; `right` from the last column
wraps to column 0 of the same row; `down` from the last row wraps to row 0
with the column clamped to `min(col, targetRowLength - 1)` (the clamp exactly
as the code computes it, which for an empty target row is the integer `-1`).
Purity is by construction: `navigatePosition` is modelled as a total function
of exactly its three arguments. -/
theorem navigation_roundtrip_wrap_clamp (grid : FieldGrid) (p : Position)
    (hvalid : indexesField grid p = true) :
    navigatePosition grid (navigatePosition grid p Direction.right) Direction.left = p ∧
    navigatePosition grid (navigatePosition grid p Direction.left) Direction.right = p ∧
    (∀ row, idx? grid p.row = some row → p.col = (row.length : Int) - 1 →
      navigatePosition grid p Direction.right = ⟨p.row, 0⟩) ∧
    (p.row = (grid.length : Int) - 1 → ∀ row0, idx? grid 0 = some row0 →
      navigatePosition grid p Direction.down = ⟨0, min p.col ((row0.length : Int) - 1)⟩) := by
  obtain ⟨prow, pcol⟩ := p
  obtain ⟨row, hrow, hc0, hclt⟩ := (indexesField_eq_true_iff grid ⟨prow, pcol⟩).mp hvalid
  simp only at hrow hc0 hclt
  have hL : (0 : Int) < (row.length : Int) := by omega
  refine ⟨?_, ?_, ?_, ?_⟩
  · by_cases hlast : pcol + 1 = (row.length : Int)
    · have h1 : (pcol + 1) % (row.length : Int) = 0 := by
        rw [hlast]
        exact Int.emod_self
      simp [navigatePosition, hrow, h1, Position.mk.injEq]
      omega
    · have h1 : (pcol + 1) % (row.length : Int) = pcol + 1 :=
        Int.emod_eq_of_lt (by omega) (by omega)
      have h2 : ¬(pcol + 1 = 0) := by omega
      simp [navigatePosition, hrow, h1, h2, Position.mk.injEq]
  · by_cases h0 : pcol = 0
    · have h1 : ((row.length : Int) - 1 + 1) % (row.length : Int) = 0 := by
        have h2 : (row.length : Int) - 1 + 1 = (row.length : Int) := by ring
        rw [h2]
        exact Int.emod_self
      simp [navigatePosition, hrow, h0, h1, Position.mk.injEq]
    · have h1 : pcol % (row.length : Int) = pcol :=
        Int.emod_eq_of_lt hc0 hclt
      simp [navigatePosition, hrow, h0, h1, Position.mk.injEq]
  · intro row' hrow' hcol
    dsimp only at hrow' hcol
    rw [hrow] at hrow'
    injection hrow' with hrow'
    subst hrow'
    have h1 : (pcol + 1) % (row.length : Int) = 0 := by
      have h2 : pcol + 1 = (row.length : Int) := by omega
      rw [h2]
      exact Int.emod_self
    simp [navigatePosition, hrow, h1]
  · intro hlastrow row0 hrow0
    dsimp only at hlastrow
    obtain ⟨hr0, hrlt⟩ := idx?_pos_len hrow
    have h1 : (prow + 1) % (grid.length : Int) = 0 := by
      have h2 : prow + 1 = (grid.length : Int) := by omega
      rw [h2]
      exact Int.emod_self
    simp [navigatePosition, h1, hrow0]

/-- Concrete instance of the C6 round-trip property. -/
theorem navigation_roundtrip_wrap_clamp_witness :
    navigatePosition [[mkField "a", mkField "b"], [mkField "c"]]
        (navigatePosition [[mkField "a", mkField "b"], [mkField "c"]] ⟨0, 1⟩ Direction.right)
        Direction.left = ⟨0, 1⟩ :=
  (navigation_roundtrip_wrap_clamp [[mkField "a", mkField "b"], [mkField "c"]] ⟨0, 1⟩
    (by decide)).1

/-- C7 counterexample: on a grid with an empty second row, moving `down` from
the valid position (0,0) produces the position (1,-1), which does not index an
existing field — the code computes `min(0, targetRow.length - 1) = -1` because
an empty JS array is truthy and passes the defensive row check. -/
theorem position_invariant_counterexample :
    indexesField [[mkField "a"], []] ⟨0, 0⟩ = true ∧
    navigatePosition [[mkField "a"], []] ⟨0, 0⟩ Direction.down = ⟨1, -1⟩ ∧
    indexesField [[mkField "a"], []]
      (navigatePosition [[mkField "a"], []] ⟨0, 0⟩ Direction.down) = false := by
  decide

/-- C7 amended: provided every row of the grid is non-empty, every move from a
position that indexes an existing field yields a position that indexes an
existing field. -/
theorem position_invariant_preserved (grid : FieldGrid) (p : Position) (d : Direction)
    (hrows : ∀ row ∈ grid, row ≠ ([] : List Field))
    (hvalid : indexesField grid p = true) :
    indexesField grid (navigatePosition grid p d) = true := by
  obtain ⟨prow, pcol⟩ := p
  obtain ⟨row, hrow, hc0, hclt⟩ := (indexesField_eq_true_iff grid ⟨prow, pcol⟩).mp hvalid
  simp only at hrow hc0 hclt
  obtain ⟨hr0, hrlt⟩ := idx?_pos_len hrow
  have hL : (0 : Int) < (row.length : Int) := by omega
  have hG : (0 : Int) < (grid.length : Int) := by omega
  cases d with
  | right =>
    have h0 : 0 ≤ (pcol + 1) % (row.length : Int) := Int.emod_nonneg _ (by omega)
    have h1 : (pcol + 1) % (row.length : Int) < (row.length : Int) := Int.emod_lt_of_pos _ hL
    rw [indexesField_eq_true_iff]
    refine ⟨row, ?_, ?_, ?_⟩ <;> simp [navigatePosition, hrow, h0, h1]
  | left =>
    rw [indexesField_eq_true_iff]
    by_cases h0 : pcol = 0
    · refine ⟨row, ?_, ?_, ?_⟩ <;> simp [navigatePosition, hrow, h0] <;> omega
    · refine ⟨row, ?_, ?_, ?_⟩ <;> simp [navigatePosition, hrow, h0] <;> omega
  | down =>
    have h0 : 0 ≤ (prow + 1) % (grid.length : Int) := Int.emod_nonneg _ (by omega)
    have h1 : (prow + 1) % (grid.length : Int) < (grid.length : Int) := Int.emod_lt_of_pos _ hG
    obtain ⟨targetRow, htarget⟩ := idx?_of_bounds h0 h1
    have hne : targetRow ≠ [] := hrows targetRow (idx?_mem htarget)
    have hlen : (0 : Int) < (targetRow.length : Int) := by
      cases targetRow with
      | nil => exact absurd rfl hne
      | cons hd tl => simp
    rw [indexesField_eq_true_iff]
    refine ⟨targetRow, ?_, ?_, ?_⟩ <;> simp [navigatePosition, htarget] <;> omega
  | up =>
    by_cases h0 : prow = 0
    · have hpr : (0 : Int) ≤ (grid.length : Int) - 1 := by omega
      have hpr' : (grid.length : Int) - 1 < (grid.length : Int) := by omega
      obtain ⟨targetRow, htarget⟩ := idx?_of_bounds hpr hpr'
      have hne : targetRow ≠ [] := hrows targetRow (idx?_mem htarget)
      have hlen : (0 : Int) < (targetRow.length : Int) := by
        cases targetRow with
        | nil => exact absurd rfl hne
        | cons hd tl => simp
      rw [indexesField_eq_true_iff]
      refine ⟨targetRow, ?_, ?_, ?_⟩ <;> simp [navigatePosition, h0, htarget] <;> omega
    · have hpr : (0 : Int) ≤ prow - 1 := by omega
      have hpr' : prow - 1 < (grid.length : Int) := by omega
      obtain ⟨targetRow, htarget⟩ := idx?_of_bounds hpr hpr'
      have hne : targetRow ≠ [] := hrows targetRow (idx?_mem htarget)
      have hlen : (0 : Int) < (targetRow.length : Int) := by
        cases targetRow with
        | nil => exact absurd rfl hne
        | cons hd tl => simp
      rw [indexesField_eq_true_iff]
      refine ⟨targetRow, ?_, ?_, ?_⟩ <;> simp [navigatePosition, h0, htarget] <;> omega

/-- Concrete instance of the amended C7 invariant preservation. -/
theorem position_invariant_preserved_witness :
    indexesField [[mkField "a"], [mkField "b"]]
      (navigatePosition [[mkField "a"], [mkField "b"]] ⟨0, 0⟩ Direction.down) = true :=
  position_invariant_preserved [[mkField "a"], [mkField "b"]] ⟨0, 0⟩ Direction.down
    (by
      intro row hr
      simp only [List.mem_cons, List.mem_singleton] at hr
      rcases hr with h | h | h
      · subst h
        simp
      · subst h
        simp
      · exact absurd h (List.not_mem_nil row))
    (by decide)

/-- C1 (code-bug evidence): the full-grid sweep `validateFields` behaves as the
claim says — zero errors for a satisfied required field, exactly
`subject is required` for an empty one — but `actionMap.done` of the final
revision never invokes termination and never populates the ErrorMap, because
it tests the truthiness of the controls' `errors` object (always truthy, even
empty) instead of running the sweep, whose call is commented out. -/
theorem done_action_never_terminates :
    validateFields [("subject", "hello")]
        [[{ mkField "subject" with required := true }]] = none ∧
    doneAction ⟨[("subject", "hello")], [], ⟨0, 0⟩, false, ""⟩ =
      (⟨[("subject", "hello")], [], ⟨0, 0⟩, false, ""⟩, none) ∧
    validateFields [("subject", "")]
        [[{ mkField "subject" with required := true }]] =
      some [("subject", "subject is required")] ∧
    doneAction ⟨[("subject", "")], [], ⟨0, 0⟩, false, ""⟩ =
      (⟨[("subject", "")], [], ⟨0, 0⟩, false, ""⟩, none) := by
  refine ⟨rfl, ?_, rfl, ?_⟩ <;> simp [doneAction, jsObjectTruthy]

/-- C2: in edit mode with a focused field, `save` commits the edit buffer into
the values for the focused id, leaves edit mode and clears the buffer iff the
focused field has no ErrorMap entry; with an entry present the whole session
state is unchanged (so the mode remains Edit). The well-formedness hypothesis
is the spec's ErrorMap invariant: entries are never empty strings (the code
tests JS truthiness of the entry, which coincides with presence exactly on
such maps). -/
theorem save_commits_iff_no_error (grid : FieldGrid) (s : SessionState) (f : Field)
    (hedit : s.editMode = true)
    (hfield : getFieldAtPosition grid s.position = some f)
    (hwf : ∀ k v, Smap.lookup s.errors k = some v → v ≠ "") :
    (Smap.lookup s.errors f.id = none →
      saveAction grid s =
        { s with values := Smap.insert s.values f.id s.editValue,
                 editMode := false, editValue := "" }) ∧
    (Smap.lookup s.errors f.id ≠ none → saveAction grid s = s) := by
  constructor
  · intro hnone
    simp [saveAction, hfield, hnone, strTruthy]
  · intro hsome
    obtain ⟨v, hv⟩ := Option.ne_none_iff_exists'.mp hsome
    have hne := hwf f.id v hv
    simp [saveAction, hfield, hv, strTruthy, hne]

/-- Concrete instance of C2: saving with no error commits the buffer. -/
theorem save_commits_iff_no_error_witness :
    saveAction [[mkField "a"]] ⟨[("a", "old")], [], ⟨0, 0⟩, true, "new"⟩ =
      ⟨[("a", "new")], [], ⟨0, 0⟩, false, ""⟩ := by
  have h :=
    (save_commits_iff_no_error [[mkField "a"]] ⟨[("a", "old")], [], ⟨0, 0⟩, true, "new"⟩
      (mkField "a") rfl rfl
      (by
        intro k v hkv
        simp [Smap.lookup] at hkv)).1 rfl
  rw [h]
  decide

/-- C3: every edit-mode keystroke sets the edit buffer to the transformed
candidate (never the raw line), and afterwards the focused field's id has an
ErrorMap entry equal to the validator's message exactly when the validator
returns a truthy (non-empty) message; when the validator is absent or returns
a falsy result (none or the empty string) the id has no entry at all. -/
theorem keystroke_pipeline_transform_validate (s : SessionState) (f : Field) (line : String) :
    (validate line (some f) s).editValue = candidateOf f line ∧
    (f.validator = none → Smap.lookup (validate line (some f) s).errors f.id = none) ∧
    (∀ v, f.validator = some v → v (candidateOf f line) = none →
      Smap.lookup (validate line (some f) s).errors f.id = none) ∧
    (∀ v, f.validator = some v → v (candidateOf f line) = some "" →
      Smap.lookup (validate line (some f) s).errors f.id = none) ∧
    (∀ v msg, f.validator = some v → v (candidateOf f line) = some msg → msg ≠ "" →
      Smap.lookup (validate line (some f) s).errors f.id = some msg) := by
  refine ⟨?_, ?_, ?_, ?_, ?_⟩
  · simp [validate, candidateOf]
  · intro hv
    simp [validate, hv, strTruthy, Smap.lookup_erase_self]
  · intro v hv hres
    unfold candidateOf at hres
    simp [validate, hv, hres, strTruthy, Smap.lookup_erase_self]
  · intro v hv hres
    unfold candidateOf at hres
    simp [validate, hv, hres, strTruthy, Smap.lookup_erase_self]
  · intro v msg hv hres hne
    unfold candidateOf at hres
    simp [validate, hv, hres, strTruthy, hne, Smap.lookup_insert_self]

/-- Concrete instance of C3: a transformer and failing validator produce the
transformed buffer and the validator's message. -/
theorem keystroke_pipeline_transform_validate_witness :
    (validate "bad" (some { mkField "w" with
        transformer := some (fun v => v ++ "!"),
        validator := some (fun v => if v = "bad!" then some "no good" else none) })
      ⟨[], [], ⟨0, 0⟩, true, ""⟩).editValue = "bad!" ∧
    Smap.lookup (validate "bad" (some { mkField "w" with
        transformer := some (fun v => v ++ "!"),
        validator := some (fun v => if v = "bad!" then some "no good" else none) })
      ⟨[], [], ⟨0, 0⟩, true, ""⟩).errors "w" = some "no good" := by
  have h := keystroke_pipeline_transform_validate ⟨[], [], ⟨0, 0⟩, true, ""⟩
    { mkField "w" with
        transformer := some (fun v => v ++ "!"),
        validator := some (fun v => if v = "bad!" then some "no good" else none) } "bad"
  exact ⟨h.1, h.2.2.2.2 _ "no good" rfl (by decide) (by decide)⟩

/-- C10: in navigate mode with a field at the current position, `remove`
deletes that field's key from the values entirely (no empty-string entry),
leaves every other value, the errors, the position and the edit buffer
unchanged, and the mode remains Navigate. -/
theorem remove_deletes_key_frame (grid : FieldGrid) (s : SessionState) (f : Field)
    (hnav : s.editMode = false)
    (hfield : getFieldAtPosition grid s.position = some f) :
    Smap.lookup (removeAction grid s).values f.id = none ∧
    (∀ k, k ≠ f.id → Smap.lookup (removeAction grid s).values k = Smap.lookup s.values k) ∧
    (removeAction grid s).errors = s.errors ∧
    (removeAction grid s).position = s.position ∧
    (removeAction grid s).editValue = s.editValue ∧
    (removeAction grid s).editMode = false := by
  refine ⟨?_, ?_, ?_, ?_, ?_, ?_⟩
  · simp [removeAction, hfield, Smap.lookup_erase_self]
  · intro k hk
    simp [removeAction, hfield]
    exact Smap.lookup_erase_ne s.values f.id k (Ne.symm hk)
  · simp [removeAction, hfield]
  · simp [removeAction, hfield]
  · simp [removeAction, hfield]
  · simp [removeAction, hfield, hnav]

/-- Concrete instance of C10: removing deletes the key, keeps the rest. -/
theorem remove_deletes_key_frame_witness :
    Smap.lookup
      (removeAction [[mkField "a", mkField "b"]]
        ⟨[("a", "x"), ("b", "y")], [], ⟨0, 0⟩, false, ""⟩).values "a" = none ∧
    Smap.lookup
      (removeAction [[mkField "a", mkField "b"]]
        ⟨[("a", "x"), ("b", "y")], [], ⟨0, 0⟩, false, ""⟩).values "b" = some "y" := by
  have h := remove_deletes_key_frame [[mkField "a", mkField "b"]]
    ⟨[("a", "x"), ("b", "y")], [], ⟨0, 0⟩, false, ""⟩ (mkField "a") rfl rfl
  exact ⟨h.1, (h.2.1 "b" (by decide)).trans (by decide)⟩

/-- C4: the merged action list is the user's actions in order followed by a
hard default for exactly those of the five required tags that no user action
declares (never overriding a user-supplied one); `parseActions []` yields
exactly the five documented defaults, pairwise distinct; and a user override
for `done` never produces a second `done` action (the number of `done`-tagged
actions equals the number the user supplied). -/
theorem parseActions_defaults_merge (cfgs : List ActionConfig) :
    mergedActions cfgs =
      cfgs.map mkUserAction ++
        ([defaultDoneAction, defaultEditAction, defaultRemoveAction,
          defaultCancelAction, defaultSaveAction].filter
          (fun d =>
            match d.spec with
            | ActionSpec.tag t => !declares cfgs t
            | ActionSpec.custom _ => true)) ∧
    parseActions [] =
      ([defaultCancelAction, defaultSaveAction],
       [defaultDoneAction, defaultEditAction, defaultRemoveAction]) ∧
    (defaultSaveAction.scope = Scope.edit ∧ defaultSaveAction.keyCombination = "return" ∧
     defaultCancelAction.scope = Scope.edit ∧ defaultCancelAction.keyCombination = "escape" ∧
     defaultEditAction.scope = Scope.navigate ∧ defaultEditAction.keyCombination = "return" ∧
     defaultRemoveAction.scope = Scope.navigate ∧ defaultRemoveAction.keyCombination = "delete" ∧
     defaultDoneAction.scope = Scope.navigate ∧ defaultDoneAction.keyCombination = "alt+return") ∧
    List.Pairwise (· ≠ ·)
      [defaultDoneAction, defaultEditAction, defaultRemoveAction,
       defaultCancelAction, defaultSaveAction] ∧
    (declares cfgs BuiltinTag.done = true →
      ((mergedActions cfgs).filter
        (fun a => decide (a.spec = ActionSpec.tag BuiltinTag.done))).length =
      ((cfgs.map mkUserAction).filter
        (fun a => decide (a.spec = ActionSpec.tag BuiltinTag.done))).length) := by
  have e1 : defaultDoneAction.spec = ActionSpec.tag BuiltinTag.done := rfl
  have e2 : defaultEditAction.spec = ActionSpec.tag BuiltinTag.edit := rfl
  have e3 : defaultRemoveAction.spec = ActionSpec.tag BuiltinTag.remove := rfl
  have e4 : defaultCancelAction.spec = ActionSpec.tag BuiltinTag.cancel := rfl
  have e5 : defaultSaveAction.spec = ActionSpec.tag BuiltinTag.save := rfl
  have hmerge : mergedActions cfgs =
      cfgs.map mkUserAction ++
        ([defaultDoneAction, defaultEditAction, defaultRemoveAction,
          defaultCancelAction, defaultSaveAction].filter
          (fun d =>
            match d.spec with
            | ActionSpec.tag t => !declares cfgs t
            | ActionSpec.custom _ => true)) := by
    unfold mergedActions
    cases h1 : declares cfgs BuiltinTag.done <;>
      cases h2 : declares cfgs BuiltinTag.edit <;>
      cases h3 : declares cfgs BuiltinTag.remove <;>
      cases h4 : declares cfgs BuiltinTag.cancel <;>
      cases h5 : declares cfgs BuiltinTag.save <;>
      simp [h1, h2, h3, h4, h5, List.filter, e1, e2, e3, e4, e5]
  refine ⟨hmerge, by decide, by decide, by decide, ?_⟩
  intro hdone
  rw [hmerge, List.filter_append, List.length_append]
  cases h2 : declares cfgs BuiltinTag.edit <;>
    cases h3 : declares cfgs BuiltinTag.remove <;>
    cases h4 : declares cfgs BuiltinTag.cancel <;>
    cases h5 : declares cfgs BuiltinTag.save <;>
    simp [hdone, h2, h3, h4, h5, List.filter, e1, e2, e3, e4, e5]

/-- Concrete instance of C4: a user override for `done` leaves exactly one
`done`-tagged action in the merged list. -/
theorem parseActions_defaults_merge_witness :
    ((mergedActions [doneOverrideConfig]).filter
      (fun a => decide (a.spec = ActionSpec.tag BuiltinTag.done))).length = 1 := by
  have h := (parseActions_defaults_merge [doneOverrideConfig]).2.2.2.2 (by decide)
  rw [h]
  decide

/-- C5 counterexample: the code does not normalize modifier order. The stored
combo of a `ctrl`-after-`shift` configuration keeps the written order (not the
claimed fixed order ctrl, shift, alt), and the candidate combo built from an
incoming ctrl+shift event places shift before ctrl (the `unshift` sequence
produces alt, shift, ctrl), refuting the claimed order at this concrete
input. -/
theorem combo_normalization_counterexample :
    normalizeKey "shift+ctrl+a" = "shift+ctrl+a" ∧
    specNormalizeKey "shift+ctrl+a" = "ctrl+shift+a" ∧
    normalizeKey "shift+ctrl+a" ≠ specNormalizeKey "shift+ctrl+a" ∧
    candidateCombo ⟨"a", true, true, false⟩ = "shift+ctrl+a" ∧
    specCandidateCombo ⟨"a", true, true, false⟩ = "ctrl+shift+a" ∧
    candidateCombo ⟨"a", true, true, false⟩ ≠ specCandidateCombo ⟨"a", true, true, false⟩ := by
  decide

/-- C5 amended: the stored combo is the configured key string with whitespace
removed, lowercased, and the first `enter` replaced by `return` (modifier
order preserved as written); an event matches exactly when the stored combo
equals the candidate combo built in the fixed order alt, shift, ctrl, then
the lowercase key name; the first matching action in registration order wins;
and at most one action fires per key event per scope (`find?` returns the
unique first match or nothing). -/
theorem combo_matching_amended (acts : List Action) (key : KeyEvent) :
    (∀ scope name spec k lbl,
      (mkAction scope name spec k lbl).keyCombination = normalizeKey k) ∧
    (∀ a : Action, isTriggered a key = true ↔ a.keyCombination = candidateCombo key) ∧
    (∀ a, findTriggered acts key = some a →
      isTriggered a key = true ∧
      ∃ l1 l2, acts = l1 ++ a :: l2 ∧ ∀ b ∈ l1, isTriggered b key = false) ∧
    (findTriggered acts key = none → ∀ a ∈ acts, isTriggered a key = false) := by
  refine ⟨fun _ _ _ _ _ => rfl, fun a => by simp [isTriggered], ?_, ?_⟩
  · intro a
    induction acts with
    | nil => intro h; simp [findTriggered] at h
    | cons x xs ih =>
      intro h
      by_cases hx : isTriggered x key = true
      · have hx' : (fun a => isTriggered a key) x = true := hx
        have hfind : List.find? (fun a => isTriggered a key) (x :: xs) = some x :=
          List.find?_cons_of_pos _ hx'
        rw [findTriggered, hfind] at h
        injection h with h
        subst h
        exact ⟨hx, [], xs, rfl, fun b hb => absurd hb (List.not_mem_nil b)⟩
      · have hx' : ¬((fun a => isTriggered a key) x = true) := hx
        have hfind : List.find? (fun a => isTriggered a key) (x :: xs) =
            List.find? (fun a => isTriggered a key) xs :=
          List.find?_cons_of_neg _ hx'
        rw [findTriggered, hfind] at h
        obtain ⟨htrig, l1, l2, heq, hall⟩ := ih h
        refine ⟨htrig, x :: l1, l2, by rw [heq]; rfl, ?_⟩
        intro b hb
        rcases List.mem_cons.mp hb with hb | hb
        · subst hb
          simpa using hx
        · exact hall b hb
  · intro h a ha
    have hnot := List.find?_eq_none.mp h a ha
    simpa using hnot

/-- Concrete instance of the amended C5: with two actions both bound to the
Enter combo, only the first in registration order fires. -/
theorem combo_matching_amended_witness :
    isTriggered defaultSaveAction ⟨"return", false, false, false⟩ = true ∧
    ∃ l1 l2,
      [defaultSaveAction, mkAction Scope.edit "Save2" (ActionSpec.tag BuiltinTag.save)
        "enter" none] = l1 ++ defaultSaveAction :: l2 ∧
      ∀ b ∈ l1, isTriggered b ⟨"return", false, false, false⟩ = false :=
  (combo_matching_amended
      [defaultSaveAction, mkAction Scope.edit "Save2" (ActionSpec.tag BuiltinTag.save)
        "enter" none]
      ⟨"return", false, false, false⟩).2.2.1 defaultSaveAction (by decide)

theorem withPlaceholderDefault_id (f : Field) :
    (withPlaceholderDefault f).id = f.id := by
  unfold withPlaceholderDefault
  split
  · rfl
  · rfl

theorem lastMatch_id {id : String} {l : List Field} {f : Field}
    (h : lastMatch id l = some f) : f.id = id := by
  induction l with
  | nil => simp [lastMatch] at h
  | cons x xs ih =>
    rw [lastMatch] at h
    cases hx : lastMatch id xs with
    | some g =>
      rw [hx] at h
      injection h with h
      subst h
      exact ih hx
    | none =>
      rw [hx] at h
      by_cases hid : x.id = id
      · rw [if_pos hid] at h
        injection h with h
        subst h
        exact hid
      · rw [if_neg hid] at h
        exact Option.noConfusion h

theorem fieldsById_fold_lookup (id : String) (l : List Field) :
    ∀ m : Smap Field,
      Smap.lookup
        (l.foldl (fun m f => let f' := withPlaceholderDefault f; Smap.insert m f'.id f') m)
        id =
      (match lastMatch id l with
       | some f => some (withPlaceholderDefault f)
       | none => Smap.lookup m id) := by
  induction l with
  | nil =>
    intro m
    simp [lastMatch]
  | cons x xs ih =>
    intro m
    rw [List.foldl_cons, ih]
    cases hx : lastMatch id xs with
    | some g => simp [lastMatch, hx]
    | none =>
      simp only [lastMatch, hx]
      have hkey : (withPlaceholderDefault x).id = x.id := withPlaceholderDefault_id x
      by_cases hid : x.id = id
      · rw [if_pos hid]
        simp only []
        rw [hkey, hid, Smap.lookup_insert_self]
      · rw [if_neg hid]
        simp only []
        rw [Smap.lookup_insert_ne]
        rw [hkey]
        exact hid

theorem fieldsById_lookup (grid : FieldGrid) (id : String) :
    Smap.lookup (fieldsById grid) id =
      (lastMatch id (getFlatFields grid)).map withPlaceholderDefault := by
  unfold fieldsById
  rw [fieldsById_fold_lookup]
  cases lastMatch id (getFlatFields grid) with
  | some f => rfl
  | none => simp [Smap.lookup]

theorem setCurrentFieldAux_first (id : String) (rows : List (List Field)) :
    ∀ (r c : Int) (p : Position),
      firstOccAux id rows r = some p → setCurrentFieldAux id rows r c = p := by
  induction rows with
  | nil =>
    intro r c p h
    simp [firstOccAux] at h
  | cons row rest ih =>
    intro r c p h
    rw [firstOccAux] at h
    cases hf : row.findIdx? (fun f => decide (f.id = id)) with
    | some cIdx =>
      rw [hf] at h
      injection h with h
      have hidx : findIndexField row id = (cIdx : Int) := by
        simp [findIndexField, hf]
      rw [setCurrentFieldAux]
      simp only [hidx]
      rw [if_pos (by omega)]
      exact h
    | none =>
      rw [hf] at h
      have hidx : findIndexField row id = -1 := by
        simp [findIndexField, hf]
      rw [setCurrentFieldAux]
      simp only [hidx]
      rw [if_neg (by omega)]
      exact ih (r + 1) (-1) p h

/-- C8 counterexample: with two fields sharing the id `a`, the derived
field-definition map resolves to the second (last) occurrence, not the first:
its placeholder is `p2`, not `p1`. The grid search of `setCurrentField` does
resolve to the first occurrence. -/
theorem duplicate_id_first_occurrence_counterexample :
    (Smap.lookup
        (fieldsById [[{ mkField "a" with placeholder := some "p1" },
                      { mkField "a" with placeholder := some "p2" }]]) "a").map
      Field.placeholder = some (some "p2") ∧
    some (some "p2") ≠ (some (some "p1") : Option (Option String)) ∧
    setCurrentFieldPosition [[{ mkField "a" with placeholder := some "p1" },
                             { mkField "a" with placeholder := some "p2" }]] "a" = ⟨0, 0⟩ := by
  refine ⟨rfl, by decide, rfl⟩

/-- C8 amended: `setCurrentField`'s grid search resolves a duplicated id to
its first occurrence in grid order, while the derived field-definition map
resolves it to the last occurrence in flat grid order (later entries of
`Object.fromEntries` overwrite earlier ones). -/
theorem duplicate_id_lookup_resolution (grid : FieldGrid) (id : String) :
    Smap.lookup (fieldsById grid) id =
      (lastMatch id (getFlatFields grid)).map withPlaceholderDefault ∧
    (∀ p, firstOccPos grid id = some p → setCurrentFieldPosition grid id = p) :=
  ⟨fieldsById_lookup grid id,
   fun p h => setCurrentFieldAux_first id grid 0 0 p h⟩

/-- Concrete instance of the amended C8: the grid search lands on the first
occurrence. -/
theorem duplicate_id_lookup_resolution_witness :
    setCurrentFieldPosition [[{ mkField "a" with placeholder := some "p1" }],
                            [{ mkField "a" with placeholder := some "p2" }]] "a" = ⟨0, 0⟩ :=
  (duplicate_id_lookup_resolution
      [[{ mkField "a" with placeholder := some "p1" }],
       [{ mkField "a" with placeholder := some "p2" }]] "a").2 ⟨0, 0⟩ rfl

theorem renderField_eq (fields : Smap Field) (errS edS selS : String → String)
    (state : Smap String) (isEdit : Bool) (errs : List String)
    (focused : Option String) (id : String) :
    renderField fields errS edS selS state isEdit errs focused id =
      (if isEdit = true ∧ focused = some id ∧ id ∈ errs then
        errS (displayTextOf fields state id)
       else if isEdit = true ∧ focused = some id then edS (displayTextOf fields state id)
       else if focused = some id then selS (displayTextOf fields state id)
       else displayTextOf fields state id) := by
  unfold renderField
  by_cases h1 : isEdit = true <;> by_cases h2 : focused = some id <;>
    by_cases h3 : id ∈ errs <;> simp [h1, h2, h3]

theorem displayTextOf_falsy (grid : FieldGrid) (state : Smap String) (id : String)
    (h : strTruthy (Smap.lookup state id) = false) :
    displayTextOf (fieldsById grid) state id =
      (match lastMatch id (getFlatFields grid) with
       | none => id
       | some f =>
         match f.placeholder with
         | some p =>
           if p = "" then (if f.required then "<" ++ f.id ++ ">" else f.id ++ "?") else p
         | none => (if f.required then "<" ++ f.id ++ ">" else f.id ++ "?")) := by
  unfold displayTextOf
  rw [h]
  simp only [Bool.false_eq_true, if_false]
  rw [fieldsById_lookup]
  cases hlm : lastMatch id (getFlatFields grid) with
  | none => simp
  | some f =>
    unfold withPlaceholderDefault
    cases hp : f.placeholder with
    | none => simp [strTruthy, hp]
    | some p =>
      by_cases hpe : p = ""
      · subst hpe
        simp [strTruthy, hp]
      · simp [strTruthy, hp, hpe]

/-- C9: for every placeholder id, the template renderer's display text is the
committed value when non-empty, else the field's placeholder — synthesized as
`<id>` for required fields and `id?` for optional fields when none is
declared (or it is declared empty), falling back to the bare field id when no
field definition exists — and exactly one style is applied, by priority:
errorStyle in edit mode when focused with the id in the error set, else
editingStyle in edit mode when focused, else selectedStyle when merely
focused, else no style. The field definition consulted is the flat grid's
last occurrence of the id (unique ids make it the only one). -/
theorem template_placeholder_resolution_and_styling (grid : FieldGrid)
    (errS edS selS : String → String) (state : Smap String) (isEdit : Bool)
    (errs : List String) (focused : Option String) (id : String) :
    ∃ text : String,
      ((∃ v, Smap.lookup state id = some v ∧ v ≠ "" ∧ text = v) ∨
       ((Smap.lookup state id = none ∨ Smap.lookup state id = some "") ∧
        (match lastMatch id (getFlatFields grid) with
         | none => text = id
         | some f =>
           match f.placeholder with
           | some p =>
             if p = "" then text = (if f.required then "<" ++ f.id ++ ">" else f.id ++ "?")
             else text = p
           | none => text = (if f.required then "<" ++ f.id ++ ">" else f.id ++ "?")))) ∧
      renderField (fieldsById grid) errS edS selS state isEdit errs focused id =
        (if isEdit = true ∧ focused = some id ∧ id ∈ errs then errS text
         else if isEdit = true ∧ focused = some id then edS text
         else if focused = some id then selS text
         else text) := by
  refine ⟨displayTextOf (fieldsById grid) state id, ?_,
    renderField_eq (fieldsById grid) errS edS selS state isEdit errs focused id⟩
  cases hv : Smap.lookup state id with
  | some v =>
    by_cases hve : v = ""
    · subst hve
      refine Or.inr ⟨Or.inr rfl, ?_⟩
      rw [displayTextOf_falsy grid state id (by rw [hv]; rfl)]
      cases hlm : lastMatch id (getFlatFields grid) with
      | none => simp
      | some f =>
        cases hp : f.placeholder with
        | none => simp [hp]
        | some p =>
          by_cases hpe : p = ""
          · simp [hp, hpe]
          · simp [hp, hpe]
    · exact Or.inl ⟨v, rfl, hve, by
        unfold displayTextOf
        rw [hv]
        simp [strTruthy, hve]⟩
  | none =>
    refine Or.inr ⟨Or.inl rfl, ?_⟩
    rw [displayTextOf_falsy grid state id (by rw [hv]; rfl)]
    cases hlm : lastMatch id (getFlatFields grid) with
    | none => simp
    | some f =>
      cases hp : f.placeholder with
      | none => simp [hp]
      | some p =>
        by_cases hpe : p = ""
        · simp [hp, hpe]
        · simp [hp, hpe]

end InteractiveText
